import Mathlib

/-!
Verification development for the BOMSyncTool core: the canonical tabular
data model (`ParseResult`), the role-aware accessor API, the diff engine
(`compare_boms` / `compare_rows`), the merge engine
(`update_and_append_boms`), the column-role classifier
(`build_bom_rows` / `analyze_columns`) and the rule-engine field matcher
(`value_matches` / `wildcard_match`).

Rust `HashMap`s that are only ever read through `get` / `contains_key`
are modelled as functions (`String → Option _` / `String → List _`);
`HashMap`s that are stored inside a `ParseResult` are modelled as
association lists so the structure has decidable equality.  Machine
integers are `Nat` (no index arithmetic here can overflow in practice),
strings are Lean `String`s with ASCII-faithful character predicates.
-/

-- ===========================================================================
-- Data model (src-tauri/src/models.rs)
-- ===========================================================================

structure ColumnMeta where
  id : String
  name : String
deriving DecidableEq, Repr

structure ParseError where
  message : String
  row : Option Nat
  column : Option Nat
  severity : String
deriving DecidableEq, Repr

structure AppError where
  message : String
deriving DecidableEq, Repr

structure ParseResult where
  rows : List (List String)
  column_roles : List (String × List String)
  column_order : List String
  guessed_columns : List (String × Nat)
  guessed_roles : List (String × String)
  errors : List String
  headers : List String
  columns : List ColumnMeta
  row_numbers : List Nat
  structured_errors : Option (List ParseError)
deriving DecidableEq, Repr

structure DiffRow where
  status : String
  a_index : Option Nat
  b_index : Option Nat
  ref_value : String
  changed_columns : List String
deriving DecidableEq, Repr

/-- Rust `str::trim`: drop leading and trailing whitespace characters
(structural recursion on the character list). -/
def rust_trim (s : String) : String :=
  ⟨((s.data.dropWhile Char.isWhitespace).reverse.dropWhile
      Char.isWhitespace).reverse⟩

/-- Splitting a character list at every separator, keeping empty pieces
(Rust `str::split` semantics). -/
def split_chars (p : Char → Bool) : List Char → List (List Char)
  | [] => [[]]
  | c :: rest =>
    if p c then [] :: split_chars p rest
    else
      match split_chars p rest with
      | q :: qs => (c :: q) :: qs
      | [] => [[c]]

/-- Rust `str::split` with a character predicate. -/
def rust_split (s : String) (p : Char → Bool) : List String :=
  (split_chars p s.data).map (fun l => ⟨l⟩)

/-- Rust `str::starts_with(&str)`. -/
def str_starts_with (s p : String) : Bool :=
  p.data.isPrefixOf s.data

/-- `HashMap::get` on an association-list model: first entry whose key
matches (keys inserted by the code are distinct). -/
def hmGet (m : List (String × α)) (k : String) : Option α :=
  (m.find? (fun e => e.1 == k)).map (fun e => e.2)

/-- Rust `usize::from_str` (as used by `"col-0".parse::<usize>()`):
an optional leading `+` followed by one or more ASCII digits. -/
def parseUsize (s : String) : Option Nat :=
  let digitsVal : List Char → Option Nat := fun cs =>
    if cs ≠ [] ∧ cs.all Char.isDigit then
      some (cs.foldl (fun n c => n * 10 + (c.toNat - 48)) 0)
    else none
  match s.data with
  | '+' :: ds => digitsVal ds
  | ds => digitsVal ds

/-- `col_id.strip_prefix("col-")?.parse::<usize>().ok()?` from
`ParseResult::get_values`. -/
def parse_col_id (col_id : String) : Option Nat :=
  if str_starts_with col_id "col-" then parseUsize (col_id.drop 4) else none

/-- `ParseResult::get_values`: trimmed, non-empty values of every column
assigned to `role`, in assignment order. -/
def get_values (p : ParseResult) (row_index : Nat) (role : String) : List String :=
  match p.rows[row_index]? with
  | none => []
  | some row =>
    match hmGet p.column_roles role with
    | none => []
    | some col_ids =>
      ((col_ids.filterMap (fun col_id =>
          (parse_col_id col_id).bind (fun idx => row[idx]?))).map
        rust_trim).filter (fun s => !s.isEmpty)

/-- `ParseResult::get_ref`: the join key, reference values joined by `", "`. -/
def get_ref (p : ParseResult) (row_index : Nat) : String :=
  String.intercalate ", " (get_values p row_index "ref")

/-- `ParseResult::get_part_no`. -/
def get_part_no (p : ParseResult) (row_index : Nat) : String :=
  (get_values p row_index "part_no").headD ""

/-- `ParseResult::get_manufacturer`. -/
def get_manufacturer (p : ParseResult) (row_index : Nat) : String :=
  (get_values p row_index "manufacturer").headD ""

/-- `ParseResult::get_value`. -/
def get_value (p : ParseResult) (row_index : Nat) : String :=
  (get_values p row_index "value").headD ""

-- ===========================================================================
-- Diff engine (src-tauri/src/diff/compare.rs)
-- ===========================================================================

/-- The `Reference → row index` lookup map of `compare_boms` (steps 1a/1b).
`HashMap::insert` overwrites, so a later row with the same key replaces an
earlier one.  The map is only read through `get`/`contains_key`, so it is
modelled as a function. -/
def key_map_step (p : ParseResult) (m : String → Option Nat) (idx : Nat) :
    String → Option Nat :=
  let ref_value := get_ref p idx
  if ref_value = "" then m
  else fun k => if k = ref_value then some idx else m k

def buildKeyMap (p : ParseResult) : String → Option Nat :=
  (List.range p.rows.length).foldl (key_map_step p) (fun _ => none)

/-- `compare_rows`: role-level comparison (part_no / manufacturer / value)
followed by positional comparison of trimmed cells, then extra indices when
the rows have different lengths.  Returns `(status, changed_columns)`. -/
def compare_rows (parse_a : ParseResult) (idx_a : Nat)
    (parse_b : ParseResult) (idx_b : Nat) : String × List String :=
  let changed0 : List String := []
  let changed1 :=
    if get_part_no parse_a idx_a ≠ get_part_no parse_b idx_b then
      changed0 ++ ((hmGet parse_a.column_roles "part_no").getD [])
    else changed0
  let changed2 :=
    if get_manufacturer parse_a idx_a ≠ get_manufacturer parse_b idx_b then
      changed1 ++ ((hmGet parse_a.column_roles "manufacturer").getD [])
    else changed1
  let changed3 :=
    if get_value parse_a idx_a ≠ get_value parse_b idx_b then
      changed2 ++ ((hmGet parse_a.column_roles "value").getD [])
    else changed2
  let row_a := parse_a.rows[idx_a]?.getD []
  let row_b := parse_b.rows[idx_b]?.getD []
  let min_len := min row_a.length row_b.length
  let changed4 := (List.range min_len).foldl
    (fun acc col_idx =>
      let val_a := rust_trim (row_a[col_idx]?.getD "")
      let val_b := rust_trim (row_b[col_idx]?.getD "")
      if val_a ≠ val_b then
        let col_id := "col-" ++ toString col_idx
        if acc.contains col_id then acc else acc ++ [col_id]
      else acc)
    changed3
  let changed5 :=
    if row_a.length ≠ row_b.length then
      changed4 ++
        ((List.range' min_len (max row_a.length row_b.length - min_len)).map
          (fun col_idx => "col-" ++ toString col_idx))
    else changed4
  (if changed5.isEmpty then "unchanged" else "modified", changed5)

/-- `compare_boms`: pass 2 walks dataset A in order (skipping empty keys),
pass 3 appends B-only rows as `added`. -/
def compare_boms (parse_a parse_b : ParseResult) : List DiffRow :=
  let map_a := buildKeyMap parse_a
  let map_b := buildKeyMap parse_b
  let pass2 := (List.range parse_a.rows.length).filterMap (fun idx_a =>
    let ref_a := get_ref parse_a idx_a
    if ref_a = "" then none
    else
      match map_b ref_a with
      | some idx_b =>
        let sc := compare_rows parse_a idx_a parse_b idx_b
        some { status := sc.1, a_index := some idx_a, b_index := some idx_b,
               ref_value := ref_a, changed_columns := sc.2 }
      | none =>
        some { status := "removed", a_index := some idx_a, b_index := none,
               ref_value := ref_a, changed_columns := [] })
  let pass3 := (List.range parse_b.rows.length).filterMap (fun idx_b =>
    let ref_b := get_ref parse_b idx_b
    if ref_b = "" then none
    else if (map_a ref_b).isSome then none
    else
      some { status := "added", a_index := none, b_index := some idx_b,
             ref_value := ref_b, changed_columns := [] })
  pass2 ++ pass3

-- ===========================================================================
-- Merge engine (src-tauri/src/diff/merge.rs)
-- ===========================================================================

/-- The `Reference → FIFO queue of row indices` map of
`update_and_append_boms` step 1 (`entry().or_default().push_back(idx)`). -/
def queue_map_step (p : ParseResult) (m : String → List Nat) (idx : Nat) :
    String → List Nat :=
  let ref_value := get_ref p idx
  if ref_value = "" then m
  else fun k => if k = ref_value then m k ++ [idx] else m k

def buildQueueMap (p : ParseResult) : String → List Nat :=
  (List.range p.rows.length).foldl (queue_map_step p) (fun _ => [])

/-- The per-column update loop of `update_and_append_boms` step 2: walk the
overlay row `row_b` by index; a cell that is non-empty after trimming
overwrites in place, or extends the row (padding the gap with empty
strings); a cell that is empty after trimming is skipped. -/
def merge_row_go (m : List String) (i : Nat) : List String → List String
  | [] => m
  | cell_b :: rest =>
    if (rust_trim cell_b).isEmpty then merge_row_go m (i + 1) rest
    else if i < m.length then merge_row_go (m.set i cell_b) (i + 1) rest
    else merge_row_go ((m ++ List.replicate (i - m.length) "") ++ [cell_b]) (i + 1) rest

/-- Merge one matched base row with its overlay row (the body of the
`if let Some(idx_b) = queue.pop_front()` branch). -/
def merge_row (row_a row_b : List String) : List String :=
  merge_row_go row_a 0 row_b

/-- Loop state of `update_and_append_boms` step 2:
`(merged_rows, map_b, used_indices)`. -/
abbrev MergeState := List (List String) × (String → List Nat) × List Nat

/-- One iteration of `update_and_append_boms` step 2.  Fetching
`parse_b.rows[idx_b]` is the one fallible operation (a panic in Rust),
modelled as the `error` branch. -/
def merge_step (parse_a parse_b : ParseResult)
    (st : Except AppError MergeState) (ia : Nat × List String) :
    Except AppError MergeState :=
  match st with
  | .error e => .error e
  | .ok (merged, m, used) =>
    let ref_a := get_ref parse_a ia.1
    match m ref_a with
    | [] => .ok (merged ++ [ia.2], m, used)
    | idx_b :: restQ =>
      match parse_b.rows[idx_b]? with
      | none => .error { message := "row index out of bounds" }
      | some row_b =>
        .ok (merged ++ [merge_row ia.2 row_b],
             fun k => if k = ref_a then restQ else m k,
             idx_b :: used)

/-- `update_and_append_boms`: update A's rows from B's FIFO queues, append
B's never-dequeued rows, renumber from 1 and reset diagnostics. -/
def update_and_append_boms (parse_a parse_b : ParseResult) :
    Except AppError ParseResult :=
  let map_b := buildQueueMap parse_b
  let st := parse_a.rows.enum.foldl (merge_step parse_a parse_b)
    (.ok ([], map_b, []))
  match st with
  | .error e => .error e
  | .ok (merged, _, used) =>
    let merged_rows := parse_b.rows.enum.foldl
      (fun acc ib => if used.contains ib.1 then acc else acc ++ [ib.2]) merged
    let row_count := merged_rows.length
    .ok { rows := merged_rows,
          column_roles := parse_a.column_roles,
          column_order := parse_a.column_order,
          guessed_columns := [],
          guessed_roles := [],
          errors := [],
          headers := parse_a.headers,
          columns := parse_a.columns,
          row_numbers := List.range' 1 row_count,
          structured_errors := none }

-- ===========================================================================
-- Column-role classifier (src-tauri/src/parsers/builder.rs, utils/text.rs)
-- ===========================================================================

def MAX_SAMPLE_ROWS : Nat := 50

/-- `is_blank_row`: every cell is empty after trimming. -/
def is_blank_row (row : List String) : Bool :=
  row.all (fun cell => (rust_trim cell).isEmpty)

/-- Rust `char::is_ascii_graphic`. -/
def isAsciiGraphic (c : Char) : Bool :=
  decide (0x21 ≤ c.toNat) && decide (c.toNat ≤ 0x7e)

/-- Rust `char::is_ascii_whitespace`. -/
def isAsciiWhitespace (c : Char) : Bool :=
  c == ' ' || c == '\t' || c == '\n' || c == '\r' || c == '\x0c'

/-- `find_invalid_char` (utils/text.rs): first control character other than
tab, or first non-ASCII character. -/
def find_invalid_char (cell : String) : Option Char :=
  cell.data.find? (fun c =>
    let code := c.toNat
    (decide (code < 0x20) && c != '\t') ||
    (decide (0x7f ≤ code) && !(isAsciiGraphic c || isAsciiWhitespace c)))

/-- Token loop of `looks_like_reference`: early `false` on a bad token,
`matched_any` tracks whether any token matched. -/
def llr_go : List String → Bool → Bool
  | [], matched_any => matched_any
  | t :: rest, matched_any =>
    let token := rust_trim t
    match token.data with
    | [] => llr_go rest matched_any
    | first :: cs =>
      if !first.isAlpha then false
      else if cs.all (fun c => c.isAlphanum || c == '-' || c == '_' || c == '/') then
        if cs.any Char.isDigit then llr_go rest true else false
      else false

/-- `looks_like_reference`: each `,`/`;`-separated token is an ASCII letter
followed by alphanumeric/`-_/` characters containing a digit. -/
def looks_like_reference (value : String) : Bool :=
  llr_go (rust_split value (fun c => c == ',' || c == ';')) false

/-- Character loop of `looks_like_part_number`. -/
def llp_go : List Char → Bool → Bool → Bool
  | [], has_letter, has_digit => has_letter && has_digit
  | c :: rest, has_letter, has_digit =>
    if c.isAlphanum then
      if c.isDigit then llp_go rest has_letter true
      else llp_go rest true has_digit
    else if c == '-' || c == '_' || c == '/' || c == '.' then
      llp_go rest has_letter has_digit
    else false

/-- `looks_like_part_number`: no whitespace, a mix of letters and digits,
separators `-_/.` allowed. -/
def looks_like_part_number (value : String) : Bool :=
  if value.isEmpty || value.data.any Char.isWhitespace then false
  else llp_go value.data false false

/-- `looks_like_manufacturer`: predominantly alphabetic, rejects
part-number shape. -/
def looks_like_manufacturer (value : String) : Bool :=
  if value.isEmpty then false
  else if looks_like_part_number value then false
  else
    let letters := value.data.countP (fun c => c.isAlpha)
    let digits := value.data.countP (fun c => c.isDigit)
    let spaces := value.data.countP (fun c => c.isWhitespace)
    decide (0 < letters) &&
      (decide (0 < spaces) || decide (digits = 0) || decide (digits ≤ letters))

/-- `is_data_row`: at least one non-empty cell and at least one
reference-looking cell. -/
def is_data_row (row : List String) : Bool :=
  let non_empty := row.countP (fun v => !(rust_trim v).isEmpty)
  let reference_like :=
    row.countP (fun v => !(rust_trim v).isEmpty && looks_like_reference (rust_trim v))
  decide (0 < non_empty) && decide (0 < reference_like)

/-- `is_potential_header`: non-empty and no reference-looking cell. -/
def is_potential_header (row : List String) : Bool :=
  if row.any (fun v => !(rust_trim v).isEmpty && looks_like_reference (rust_trim v)) then false
  else decide (0 < row.countP (fun v => !(rust_trim v).isEmpty))

/-- `detect_data_start`: index of the first data-looking row. -/
def detect_data_start (rows : List (Nat × List String)) : Option Nat :=
  rows.findIdx? (fun ir => is_data_row ir.2)

structure ColumnStats where
  non_empty : Nat
  reference_like : Nat
  part_like : Nat
  manufacturer_like : Nat
deriving DecidableEq, Repr

structure ColumnAnalysis where
  reference_candidates : List Nat
  part_candidates : List Nat
  manufacturer_candidates : List Nat
deriving DecidableEq, Repr

/-- `analyze_columns`: score every column over the first `MAX_SAMPLE_ROWS`
data rows; a column is a candidate for a role when at least one sampled
value matches and matches are at least half of the non-empty values
(`stat.xxx_like > 0 && stat.xxx_like * 2 >= stat.non_empty`).  The stats
vector is modelled as a function (only indices below `max_columns` are
ever consulted). -/
def column_stats_step (stats : Nat → ColumnStats) (ir : Nat × List String) :
    Nat → ColumnStats :=
  fun col_idx =>
    let value := rust_trim (ir.2[col_idx]?.getD "")
    let stat := stats col_idx
    if value.isEmpty then stat
    else
      { non_empty := stat.non_empty + 1,
        reference_like :=
          stat.reference_like + (if looks_like_reference value then 1 else 0),
        part_like :=
          stat.part_like + (if looks_like_part_number value then 1 else 0),
        manufacturer_like :=
          stat.manufacturer_like +
            (if looks_like_manufacturer value then 1 else 0) }

def analyze_columns (rows : List (Nat × List String)) (max_columns : Nat) :
    ColumnAnalysis :=
  let stats : Nat → ColumnStats :=
    (rows.take MAX_SAMPLE_ROWS).foldl column_stats_step (fun _ => ⟨0, 0, 0, 0⟩)
  { reference_candidates := (List.range max_columns).filter (fun idx =>
      decide (0 < (stats idx).reference_like) &&
      decide ((stats idx).non_empty ≤ (stats idx).reference_like * 2)),
    part_candidates := (List.range max_columns).filter (fun idx =>
      decide (0 < (stats idx).part_like) &&
      decide ((stats idx).non_empty ≤ (stats idx).part_like * 2)),
    manufacturer_candidates := (List.range max_columns).filter (fun idx =>
      decide (0 < (stats idx).manufacturer_like) &&
      decide ((stats idx).non_empty ≤ (stats idx).manufacturer_like * 2)) }

/-- What one `assign_role` call contributes to the accumulators of
`build_bom_rows`. -/
structure AssignOutcome where
  roles_add : List (String × List String)
  errors_add : List String
  structured_add : List ParseError
  priority_add : List Nat
  assigned : List Nat

/-- `assign_role`: a unique candidate is assigned; zero or several
candidates leave the role unresolved with a warning. -/
def assign_role (label : String) (role_key : String) (candidates : List Nat) :
    AssignOutcome :=
  match candidates with
  | [] =>
    let message := label ++ "列を自動判定できませんでした。編集モードで指定してください。"
    ⟨[], [message], [⟨message, none, none, "warning"⟩], [], []⟩
  | [idx] =>
    ⟨[(role_key, ["col-" ++ toString idx])], [], [], [idx], [idx]⟩
  | _ =>
    let human_candidates :=
      String.intercalate ", " (candidates.map (fun idx => "Column " ++ toString (idx + 1)))
    let message := label ++ "列の候補が複数見つかりました（" ++ human_candidates
      ++ "）。編集モードで指定してください。"
    ⟨[], [message], [⟨message, none, none, "warning"⟩], [], []⟩

/-- `push_warning` as a pair of deltas. -/
def mk_warning (message : String) (row column : Option Nat) :
    List String × List ParseError :=
  ([message], [⟨message, row, column, "warning"⟩])

/-- `push_error` as a pair of deltas. -/
def mk_error (message : String) (row column : Option Nat) :
    List String × List ParseError :=
  ([message], [⟨message, row, column, "error"⟩])

/-- Reference-column scan of one row in `validate_rows`: collect non-empty
trimmed values, one missing-data error per empty or absent cell. -/
def vr_ref_scan (line_number : Nat) (row : List String) :
    List Nat → List String × List String × List ParseError
  | [] => ([], [], [])
  | idx :: rest =>
    let (vals, es, ses) := vr_ref_scan line_number row rest
    match row[idx]? with
    | some value =>
      if (rust_trim value).isEmpty then
        let (e, se) := mk_error
          (toString line_number ++ "行目: Reference列のデータが不足しています。")
          (some line_number) (some idx)
        (vals, e ++ es, se ++ ses)
      else (rust_trim value :: vals, es, ses)
    | none =>
      let (e, se) := mk_error
        (toString line_number ++ "行目: Reference列のデータが不足しています。")
        (some line_number) (some idx)
      (vals, e ++ es, se ++ ses)

/-- `validate_rows`: per-row advisory diagnostics (invalid characters,
missing/empty/duplicate references, empty part numbers); never aborts. -/
def validate_rows (rows : List (Nat × List String))
    (ref_indices part_indices : List Nat) : List String × List ParseError :=
  let step := fun (st : List String × List String × List ParseError)
      (ir : Nat × List String) =>
    let (seen_refs, errors, structured) := st
    let line_number := ir.1 + 1
    let row := ir.2
    let (cErrs, cStruct) := row.enum.foldl
      (fun acc ci =>
        match find_invalid_char ci.2 with
        | some invalid_char =>
          let (e, se) := mk_warning
            (toString line_number ++ "行目(列" ++ toString (ci.1 + 1)
              ++ "): 無効な文字 \x27" ++ String.singleton invalid_char
              ++ "\x27 を検出しました。")
            (some line_number) (some ci.1)
          (acc.1 ++ e, acc.2 ++ se)
        | none => acc)
      ([], [])
    let (seen_refs2, rErrs, rStruct) :=
      if ref_indices.isEmpty then (seen_refs, [], [])
      else
        let (reference_values, mErrs, mStruct) :=
          vr_ref_scan line_number row ref_indices
        if reference_values.isEmpty then (seen_refs, mErrs, mStruct)
        else
          let reference := String.intercalate ", " reference_values
          if reference.isEmpty then
            let (e, se) := mk_warning
              (toString line_number ++ "行目: Referenceが空です。")
              (some line_number) ref_indices.head?
            (seen_refs, mErrs ++ e, mStruct ++ se)
          else if seen_refs.contains reference then
            let (e, se) := mk_warning
              (toString line_number ++ "行目: Reference \x27" ++ reference
                ++ "\x27 が重複しています。")
              (some line_number) ref_indices.head?
            (seen_refs, mErrs ++ e, mStruct ++ se)
          else (reference :: seen_refs, mErrs, mStruct)
    let (pErrs, pStruct) :=
      if part_indices.isEmpty then ([], [])
      else
        let part_is_empty :=
          part_indices.all (fun idx => (rust_trim (row[idx]?.getD "")).isEmpty)
        if part_is_empty then
          mk_warning
            (toString line_number ++ "行目: 部品型番が空です。編集モードで指定してください。")
            (some line_number) part_indices.head?
        else ([], [])
    (seen_refs2, errors ++ cErrs ++ rErrs ++ pErrs,
     structured ++ cStruct ++ rStruct ++ pStruct)
  let (_, errors, structured) := rows.foldl step ([], [], [])
  (errors, structured)

/-- The `column_order` accumulation step of `build_bom_rows`
(`if used.insert(idx) { column_order.push(...) }`). -/
def column_order_step (acc : List String × List Nat) (idx : Nat) :
    List String × List Nat :=
  if acc.2.contains idx then acc
  else (acc.1 ++ ["col-" ++ toString idx], idx :: acc.2)

/-- `build_bom_rows`: strip leading blank rows, find the data start, lift a
header candidate, build column metadata, run role analysis/assignment and
row validation; hard error only when no usable row exists. -/
def build_bom_rows (rows : List (List String)) : Except AppError ParseResult :=
  if rows.isEmpty then
    .error ⟨"BOMデータ内に有効な行が見つかりませんでした。"⟩
  else
    let indexed_rows := rows.enum.dropWhile (fun ir => is_blank_row ir.2)
    if indexed_rows.isEmpty then
      .error ⟨"BOMデータ内に有効な行が見つかりませんでした。"⟩
    else
      let detected_start := detect_data_start indexed_rows
      let start_outcome : Nat × List String × List ParseError :=
        match detected_start with
        | some idx => (idx, [], [])
        | none =>
          let message := "開始行が判定できませんでした。編集モードで指定してください。"
          (0, [message], [⟨message, none, none, "warning"⟩])
      let data_start := start_outcome.1
      let header_row : Option (Nat × List String) :=
        if 0 < data_start then
          match indexed_rows[data_start - 1]? with
          | some candidate =>
            if is_potential_header candidate.2 then some candidate else none
          | none => none
        else none
      let data_rows := indexed_rows.drop data_start
      if data_rows.isEmpty then
        .error ⟨"データ行が見つかりませんでした。"⟩
      else
        let max_columns :=
          ((data_rows.map (fun ir => ir.2.length)) ++
            (match header_row with
             | some hr => [hr.2.length]
             | none => [])).foldl max 0
        let headers := (List.range max_columns).map (fun col_idx =>
          match header_row with
          | some hr =>
            let s := rust_trim (hr.2[col_idx]?.getD "")
            if s.isEmpty then "Column " ++ toString (col_idx + 1) else s
          | none => "Column " ++ toString (col_idx + 1))
        let columns : List ColumnMeta :=
          headers.enum.map (fun p => ⟨"col-" ++ toString p.1, p.2⟩)
        let raw_rows := data_rows.map (fun ir => ir.2)
        let row_numbers := data_rows.map (fun ir => ir.1 + 1)
        let analysis := analyze_columns data_rows max_columns
        let refO := assign_role "Reference" "ref" analysis.reference_candidates
        let partO := assign_role "部品型番" "part_no" analysis.part_candidates
        let mfrO := assign_role "メーカー" "manufacturer" analysis.manufacturer_candidates
        let column_roles := refO.roles_add ++ partO.roles_add ++ mfrO.roles_add
        let priority_order := refO.priority_add ++ partO.priority_add ++ mfrO.priority_add
        let co1 := priority_order.foldl column_order_step ([], [])
        let co2 := (List.range max_columns).foldl column_order_step co1
        let vOut := validate_rows data_rows refO.assigned partO.assigned
        .ok { rows := raw_rows,
              column_roles := column_roles,
              column_order := co2.1,
              guessed_columns := [],
              guessed_roles := [],
              errors := start_outcome.2.1 ++ refO.errors_add ++ partO.errors_add
                ++ mfrO.errors_add ++ vOut.1,
              headers := headers,
              columns := columns,
              row_numbers := row_numbers,
              structured_errors := some (start_outcome.2.2 ++ refO.structured_add
                ++ partO.structured_add ++ mfrO.structured_add ++ vOut.2) }

-- ===========================================================================
-- Rule-engine field matching (src-tauri/src/matchers/helpers.rs)
-- ===========================================================================

/-- Rust `char::to_lowercase` restricted to its ASCII action (the only part
exercised by the rule engine's patterns). -/
def char_to_lower (c : Char) : Char :=
  if 65 ≤ c.toNat ∧ c.toNat ≤ 90 then Char.ofNat (c.toNat + 32) else c

/-- Rust `str::to_lowercase` on the ASCII fragment. -/
def to_lowercase (s : String) : String :=
  ⟨s.data.map char_to_lower⟩

/-- Rust `str::find(&str)` on the character-list model: index of the
leftmost occurrence of `p` as a contiguous sublist. -/
def findSub : List Char → List Char → Option Nat
  | [], p => if p.isEmpty then some 0 else none
  | c :: t2, p =>
    if (c :: t2).take p.length == p then some 0
    else (findSub t2 p).map (fun n => n + 1)

/-- Rust `str::starts_with(&str)` on the character-list model. -/
def starts_with_l (t p : List Char) : Bool :=
  t.take p.length == p

/-- Rust `str::ends_with(&str)` on the character-list model. -/
def ends_with_l (t p : List Char) : Bool :=
  t.drop (t.length - p.length) == p

/-- Rust `pattern.split('*')`: split at every `'*'`, keeping empty pieces. -/
def split_parts : List Char → List (List Char)
  | [] => [[]]
  | c :: rest =>
    if c == '*' then [] :: split_parts rest
    else
      match split_parts rest with
      | p :: ps => (c :: p) :: ps
      | [] => [[c]]

/-- The part loop of `wildcard_match`: `i` is the position of the head part
in the full split, `cur` the search start (`current_index`).  An empty part
is skipped; part 0 must be a prefix; the last part is checked with
`ends_with` against the whole target; middle parts are searched left to
right from `cur`. -/
def wild_go (target : List Char) : List (List Char) → Nat → Nat → Bool
  | [], _, _ => true
  | p :: rest, i, cur =>
    if p.isEmpty then wild_go target rest (i + 1) cur
    else if i == 0 then
      if starts_with_l target p then wild_go target rest (i + 1) p.length
      else false
    else if rest.isEmpty then ends_with_l target p
    else
      match findSub (target.drop cur) p with
      | some found => wild_go target rest (i + 1) (cur + found + p.length)
      | none => false

/-- `wildcard_match` (matchers/helpers.rs): `'*'`-glob matching via the
greedy part loop. -/
def wildcard_match (target pattern : List Char) : Bool :=
  if pattern == ['*'] then true
  else
    let parts := split_parts pattern
    if parts.length == 1 then target == pattern
    else wild_go target parts 0 0

/-- `value_matches` (matchers/helpers.rs): case-insensitive field matching
dispatched on the trimmed, lowercased match type. -/
def value_matches (target pattern match_type : String) : Bool :=
  let target_lower := to_lowercase target
  let pattern_lower := to_lowercase pattern
  let mt := to_lowercase (rust_trim match_type)
  if mt = "equals" then target_lower == pattern_lower
  else if mt = "contains" then (findSub target_lower.data pattern_lower.data).isSome
  else if mt = "starts_with" then starts_with_l target_lower.data pattern_lower.data
  else if mt = "ends_with" then ends_with_l target_lower.data pattern_lower.data
  else if mt = "wildcard" then wildcard_match target_lower.data pattern_lower.data
  else if pattern.data.contains '*' then
    wildcard_match target_lower.data pattern_lower.data
  else target_lower == pattern_lower

-- ===========================================================================
-- Specification-side definitions (from the spec's words, for comparison)
-- ===========================================================================

/-- Spec reading of `'*'`-glob matching: `glob_spec parts target` holds when
`target` splits as the literal segments of `parts` in order, with arbitrary
gaps between consecutive segments (the first segment anchored at the start,
the last at the end). -/
inductive glob_spec : List (List Char) → List Char → Prop where
  | single (p : List Char) : glob_spec [p] p
  | cons (p g : List Char) (ps : List (List Char)) (t : List Char) :
      glob_spec ps t → glob_spec (p :: ps) (p ++ g ++ t)

/-- Spec reading of the claim "the pattern matches the target exactly when
the target can be split so that each literal segment between `'*'`s occurs
in order". -/
def glob_spec_matches (pattern target : List Char) : Prop :=
  glob_spec (split_parts pattern) target

/-- The trimmed cell of an indexed row at column `c`, as sampled by
`analyze_columns`. -/
def sample_cell (ir : Nat × List String) (c : Nat) : String :=
  rust_trim (ir.2[c]?.getD "")

/-- Number of sampled rows whose cell at column `c` is non-empty. -/
def non_empty_count (rows : List (Nat × List String)) (c : Nat) : Nat :=
  (rows.take MAX_SAMPLE_ROWS).countP (fun ir => !(sample_cell ir c).isEmpty)

/-- Number of sampled rows whose cell at column `c` is non-empty and
reference-shaped. -/
def ref_like_count (rows : List (Nat × List String)) (c : Nat) : Nat :=
  (rows.take MAX_SAMPLE_ROWS).countP
    (fun ir => !(sample_cell ir c).isEmpty && looks_like_reference (sample_cell ir c))

/-- Number of sampled rows whose cell at column `c` is non-empty and
part-number-shaped. -/
def part_like_count (rows : List (Nat × List String)) (c : Nat) : Nat :=
  (rows.take MAX_SAMPLE_ROWS).countP
    (fun ir => !(sample_cell ir c).isEmpty && looks_like_part_number (sample_cell ir c))

/-- Number of sampled rows whose cell at column `c` is non-empty and
manufacturer-shaped. -/
def mfr_like_count (rows : List (Nat × List String)) (c : Nat) : Nat :=
  (rows.take MAX_SAMPLE_ROWS).countP
    (fun ir => !(sample_cell ir c).isEmpty && looks_like_manufacturer (sample_cell ir c))

/-- Length of an overlay row up to its last cell that is non-empty after
trimming (trailing trim-empty cells do not count). -/
def trim_len : List String → Nat
  | [] => 0
  | c :: rest =>
    let t := trim_len rest
    if t = 0 && (rust_trim c).isEmpty then 0 else t + 1

/-- Keys of the `added` rows of a diff. -/
def addedKeys (diffs : List DiffRow) : List String :=
  diffs.filterMap (fun d => if d.status = "added" then some d.ref_value else none)

/-- Keys of the `removed` rows of a diff. -/
def removedKeys (diffs : List DiffRow) : List String :=
  diffs.filterMap (fun d => if d.status = "removed" then some d.ref_value else none)

/-- The non-empty join keys of a dataset, in row order. -/
def refKeys (p : ParseResult) : List String :=
  (List.range p.rows.length).filterMap (fun i =>
    if get_ref p i = "" then none else some (get_ref p i))

-- ===========================================================================
-- Key-map lemmas (diff engine, claims on duplicate-key handling)
-- ===========================================================================

lemma key_map_step_apply (p : ParseResult) (m : String → Option Nat)
    (idx : Nat) (k : String) :
    key_map_step p m idx k =
      if get_ref p idx = "" then m k
      else if k = get_ref p idx then some idx else m k := by
  unfold key_map_step
  by_cases h : get_ref p idx = "" <;> simp [h]

lemma key_map_fold_eq_some (p : ParseResult) (n : Nat) (k : String) (i : Nat) :
    ((List.range n).foldl (key_map_step p) (fun _ => none)) k = some i ↔
      (i < n ∧ get_ref p i = k ∧ k ≠ "" ∧
        ∀ j, i < j → j < n → get_ref p j ≠ k) := by
  induction n with
  | zero => simp
  | succ n ih =>
    rw [List.range_succ, List.foldl_append, List.foldl_cons, List.foldl_nil,
      key_map_step_apply]
    by_cases h0 : get_ref p n = ""
    · rw [if_pos h0, ih]
      constructor
      · rintro ⟨hi, hk, hne, hall⟩
        refine ⟨by omega, hk, hne, fun j hij hjn => ?_⟩
        rcases Nat.lt_succ_iff_lt_or_eq.mp hjn with h | h
        · exact hall j hij h
        · subst h; rw [h0]; exact fun hc => hne hc.symm
      · rintro ⟨hi, hk, hne, hall⟩
        have hin : i < n := by
          rcases Nat.lt_succ_iff_lt_or_eq.mp hi with h | h
          · exact h
          · exfalso; subst h; exact hne (h0 ▸ hk).symm
        exact ⟨hin, hk, hne, fun j hij hjn => hall j hij (by omega)⟩
    · rw [if_neg h0]
      by_cases hk : k = get_ref p n
      · rw [if_pos hk]
        constructor
        · rintro h
          have hin : i = n := by injection h; omega
          subst hin
          exact ⟨Nat.lt_succ_self i, hk.symm, fun hc => h0 (hk ▸ hc),
            fun j hij hjn => by omega⟩
        · rintro ⟨hi, hkk, hne, hall⟩
          rcases Nat.lt_succ_iff_lt_or_eq.mp hi with h | h
          · exfalso; exact hall n h (Nat.lt_succ_self n) hk.symm
          · subst h; rfl
      · rw [if_neg hk, ih]
        constructor
        · rintro ⟨hi, hkk, hne, hall⟩
          refine ⟨by omega, hkk, hne, fun j hij hjn => ?_⟩
          rcases Nat.lt_succ_iff_lt_or_eq.mp hjn with h | h
          · exact hall j hij h
          · subst h; exact fun hc => hk hc.symm
        · rintro ⟨hi, hkk, hne, hall⟩
          have hin : i < n := by
            rcases Nat.lt_succ_iff_lt_or_eq.mp hi with h | h
            · exact h
            · exfalso; subst h; exact hk hkk.symm
          exact ⟨hin, hkk, hne, fun j hij hjn => hall j hij (by omega)⟩

lemma buildKeyMap_eq_some (p : ParseResult) (k : String) (i : Nat) :
    buildKeyMap p k = some i ↔
      (i < p.rows.length ∧ get_ref p i = k ∧ k ≠ "" ∧
        ∀ j, i < j → j < p.rows.length → get_ref p j ≠ k) :=
  key_map_fold_eq_some p p.rows.length k i

lemma key_map_fold_isSome (p : ParseResult) (n : Nat) (k : String) :
    (((List.range n).foldl (key_map_step p) (fun _ => none)) k).isSome = true ↔
      (k ≠ "" ∧ ∃ i, i < n ∧ get_ref p i = k) := by
  induction n with
  | zero => simp
  | succ n ih =>
    rw [List.range_succ, List.foldl_append, List.foldl_cons, List.foldl_nil,
      key_map_step_apply]
    by_cases h0 : get_ref p n = ""
    · rw [if_pos h0, ih]
      constructor
      · rintro ⟨hne, i, hi, hk⟩
        exact ⟨hne, i, by omega, hk⟩
      · rintro ⟨hne, i, hi, hk⟩
        refine ⟨hne, i, ?_, hk⟩
        rcases Nat.lt_succ_iff_lt_or_eq.mp hi with hh | hh
        · exact hh
        · exfalso; subst hh; exact hne (hk.symm.trans h0)
    · rw [if_neg h0]
      by_cases hk : k = get_ref p n
      · rw [if_pos hk]
        constructor
        · intro _
          exact ⟨by rw [hk]; exact h0, n, Nat.lt_succ_self n, hk.symm⟩
        · intro _; rfl
      · rw [if_neg hk, ih]
        constructor
        · rintro ⟨hne, i, hi, hik⟩
          exact ⟨hne, i, by omega, hik⟩
        · rintro ⟨hne, i, hi, hik⟩
          refine ⟨hne, i, ?_, hik⟩
          rcases Nat.lt_succ_iff_lt_or_eq.mp hi with hh | hh
          · exact hh
          · exfalso; subst hh; exact hk hik.symm

lemma buildKeyMap_isSome (p : ParseResult) (k : String) :
    (buildKeyMap p k).isSome = true ↔
      (k ≠ "" ∧ ∃ i, i < p.rows.length ∧ get_ref p i = k) :=
  key_map_fold_isSome p p.rows.length k

lemma ite_eq_or {c : Prop} [Decidable c] (s t : String) :
    (if c then s else t) = s ∨ (if c then s else t) = t := by
  by_cases h : c <;> simp [h]

lemma compare_rows_fst (a : ParseResult) (ia : Nat) (b : ParseResult) (ib : Nat) :
    (compare_rows a ia b ib).1 = "unchanged" ∨ (compare_rows a ia b ib).1 = "modified" := by
  unfold compare_rows
  dsimp only
  exact ite_eq_or _ _

lemma foldl_const {α β : Type} (l : List β) (a : α) :
    l.foldl (fun acc _ => acc) a = a := by
  induction l generalizing a with
  | nil => rfl
  | cons x xs ih => exact ih a

lemma compare_rows_self (p : ParseResult) (i : Nat) :
    compare_rows p i p i = ("unchanged", []) := by
  unfold compare_rows
  simp only [ne_self_iff_false, if_false, ite_false, Nat.min_self, ite_self]
  rw [foldl_const]
  simp

-- ===========================================================================
-- Example datasets used by counterexamples and witnesses
-- ===========================================================================

/-- Two-column dataset with `ref = col-0`, `part_no = col-1`. -/
def mkDataset (rows : List (List String)) : ParseResult :=
  { rows := rows,
    column_roles := [("ref", ["col-0"]), ("part_no", ["col-1"])],
    column_order := ["col-0", "col-1"],
    guessed_columns := [], guessed_roles := [], errors := [],
    headers := ["Ref", "Part"],
    columns := [⟨"col-0", "Ref"⟩, ⟨"col-1", "Part"⟩],
    row_numbers := [1], structured_errors := none }

/-- Dataset with a duplicated join key `C1` held by different rows. -/
def dupDataset : ParseResult := mkDataset [["C1", "x"], ["C1", "y"]]

/-- One-row dataset whose single row equals `dupDataset`'s first row. -/
def singleDataset : ParseResult := mkDataset [["C1", "x"]]

/-- Dataset with two distinct join keys. -/
def twoKeyDataset : ParseResult := mkDataset [["C1", "x"], ["R2", "y"]]

-- ===========================================================================
-- C1: duplicate-key policy of the diff engine's lookup maps
-- ===========================================================================

/-- C1 counterexample: in `dupDataset` rows 0 and 1 share the non-empty key
`"C1"`, yet the key map records row index 1 (the largest, not the smallest),
and `compare_boms` uses row 1 of the second dataset as the counterpart —
reporting `modified` even though row 0 of the second dataset is cell-equal
to the compared row. -/
theorem C1_counterexample :
    get_ref dupDataset 0 = "C1" ∧ get_ref dupDataset 1 = "C1" ∧
    buildKeyMap dupDataset "C1" = some 1 ∧
    singleDataset.rows[0]? = dupDataset.rows[0]? ∧
    (compare_boms singleDataset dupDataset).map (fun d => (d.status, d.b_index)) =
      [("modified", some 1)] := by
  refine ⟨rfl, rfl, ?_, rfl, ?_⟩ <;> decide

/-- C1 (amended): the diff engine's key-to-row-index maps are single-winner
last-seen: `buildKeyMap p k = some i` exactly when row `i` has the
non-empty key `k` and no later row does — the row with the largest index
wins, and `compare_boms` uses that index for counterpart lookup. -/
theorem C1_amended (p : ParseResult) (k : String) (i : Nat) :
    buildKeyMap p k = some i ↔
      (i < p.rows.length ∧ get_ref p i = k ∧ k ≠ "" ∧
        ∀ j, i < j → j < p.rows.length → get_ref p j ≠ k) :=
  buildKeyMap_eq_some p k i

-- ===========================================================================
-- C4: compare(A, A)
-- ===========================================================================

/-- C4 counterexample: `dupDataset` has two rows sharing the non-empty key
`"C1"` with different part numbers; `compare_boms dupDataset dupDataset`
reports its first row as `modified` with a non-empty `changed_columns`,
because the last-seen key map pairs row 0 with row 1. -/
theorem C4_counterexample :
    (compare_boms dupDataset dupDataset).map
        (fun d => (d.status, d.changed_columns)) =
      [("modified", ["col-1"]), ("unchanged", [])] := by
  decide

/-- C4 (amended): for every dataset whose rows have pairwise-distinct
non-empty join keys, every `DiffRow` of `compare_boms a a` has status
`"unchanged"` and an empty `changed_columns` list. -/
theorem C4_amended (a : ParseResult)
    (h : ∀ i, i < a.rows.length → ∀ j, j < a.rows.length →
      get_ref a i ≠ "" → get_ref a i = get_ref a j → i = j) :
    (compare_boms a a).all
      (fun d => d.status == "unchanged" && d.changed_columns.isEmpty) = true := by
  rw [List.all_eq_true]
  intro d hd
  unfold compare_boms at hd
  rw [List.mem_append] at hd
  have hself : ∀ idx, idx < a.rows.length → get_ref a idx ≠ "" →
      buildKeyMap a (get_ref a idx) = some idx := by
    intro idx hidx h0
    rw [buildKeyMap_eq_some]
    exact ⟨hidx, rfl, h0, fun j hij hjn hc => by
      have := h idx hidx j hjn h0 hc.symm
      omega⟩
  rcases hd with hd | hd
  · rw [List.mem_filterMap] at hd
    obtain ⟨idx, hidx, heq⟩ := hd
    rw [List.mem_range] at hidx
    dsimp only at heq
    by_cases h0 : get_ref a idx = ""
    · rw [if_pos h0] at heq
      exact absurd heq (by simp)
    · rw [if_neg h0, hself idx hidx h0] at heq
      injection heq with heq
      subst heq
      simp [compare_rows_self]
  · rw [List.mem_filterMap] at hd
    obtain ⟨idx, hidx, heq⟩ := hd
    rw [List.mem_range] at hidx
    dsimp only at heq
    by_cases h0 : get_ref a idx = ""
    · rw [if_pos h0] at heq
      exact absurd heq (by simp)
    · rw [if_neg h0] at heq
      have : (buildKeyMap a (get_ref a idx)).isSome = true := by
        rw [buildKeyMap_isSome]
        exact ⟨h0, idx, hidx, rfl⟩
      rw [if_pos this] at heq
      exact absurd heq (by simp)

/-- C4 witness: the amended theorem applied to a concrete dataset with
distinct keys. -/
theorem C4_amended_witness :
    (compare_boms twoKeyDataset twoKeyDataset).all
      (fun d => d.status == "unchanged" && d.changed_columns.isEmpty) = true :=
  C4_amended twoKeyDataset (by decide)

-- ===========================================================================
-- C5: added/removed key symmetry
-- ===========================================================================

lemma addedKeys_compare (a b : ParseResult) (k : String) :
    k ∈ addedKeys (compare_boms a b) ↔
      (∃ j, j < b.rows.length ∧ get_ref b j = k ∧ k ≠ "" ∧
        (buildKeyMap a k).isSome = false) := by
  unfold addedKeys compare_boms
  rw [List.filterMap_append, List.mem_append]
  constructor
  · rintro (h | h)
    · exfalso
      rw [List.mem_filterMap] at h
      obtain ⟨d, hd, hdk⟩ := h
      rw [List.mem_filterMap] at hd
      obtain ⟨idx, _, heq⟩ := hd
      dsimp only at heq
      by_cases h0 : get_ref a idx = ""
      · rw [if_pos h0] at heq
        exact absurd heq (by simp)
      · rw [if_neg h0] at heq
        cases hmb : buildKeyMap b (get_ref a idx) with
        | some idx_b =>
          rw [hmb] at heq
          injection heq with heq
          subst heq
          rcases compare_rows_fst a idx b idx_b with hst | hst <;>
            · dsimp only at hdk
              rw [hst] at hdk
              simp at hdk
        | none =>
          rw [hmb] at heq
          injection heq with heq
          subst heq
          simp at hdk
    · rw [List.mem_filterMap] at h
      obtain ⟨d, hd, hdk⟩ := h
      rw [List.mem_filterMap] at hd
      obtain ⟨idx, hidx, heq⟩ := hd
      rw [List.mem_range] at hidx
      dsimp only at heq
      by_cases h0 : get_ref b idx = ""
      · rw [if_pos h0] at heq
        exact absurd heq (by simp)
      · rw [if_neg h0] at heq
        by_cases hsome : (buildKeyMap a (get_ref b idx)).isSome
        · rw [if_pos hsome] at heq
          exact absurd heq (by simp)
        · rw [if_neg hsome] at heq
          injection heq with heq
          subst heq
          rw [if_pos rfl] at hdk
          injection hdk with hdk
          subst hdk
          exact ⟨idx, hidx, rfl, h0, by simpa using hsome⟩
  · rintro ⟨j, hj, hjk, hne, hnot⟩
    right
    rw [List.mem_filterMap]
    refine ⟨⟨"added", none, some j, k, []⟩, ?_, by rw [if_pos rfl]⟩
    rw [List.mem_filterMap]
    refine ⟨j, List.mem_range.mpr hj, ?_⟩
    dsimp only
    rw [hjk, if_neg hne, if_neg (by simp [hnot])]

lemma removedKeys_compare (a b : ParseResult) (k : String) :
    k ∈ removedKeys (compare_boms a b) ↔
      (∃ i, i < a.rows.length ∧ get_ref a i = k ∧ k ≠ "" ∧
        (buildKeyMap b k).isSome = false) := by
  unfold removedKeys compare_boms
  rw [List.filterMap_append, List.mem_append]
  constructor
  · rintro (h | h)
    · rw [List.mem_filterMap] at h
      obtain ⟨d, hd, hdk⟩ := h
      rw [List.mem_filterMap] at hd
      obtain ⟨idx, hidx, heq⟩ := hd
      rw [List.mem_range] at hidx
      dsimp only at heq
      by_cases h0 : get_ref a idx = ""
      · rw [if_pos h0] at heq
        exact absurd heq (by simp)
      · rw [if_neg h0] at heq
        cases hmb : buildKeyMap b (get_ref a idx) with
        | some idx_b =>
          exfalso
          rw [hmb] at heq
          injection heq with heq
          subst heq
          rcases compare_rows_fst a idx b idx_b with hst | hst <;>
            · dsimp only at hdk
              rw [hst] at hdk
              rw [if_neg (by decide)] at hdk
              exact absurd hdk (by simp)
        | none =>
          rw [hmb] at heq
          injection heq with heq
          subst heq
          rw [if_pos rfl] at hdk
          injection hdk with hdk
          subst hdk
          refine ⟨idx, hidx, rfl, h0, ?_⟩
          dsimp only
          rw [hmb]
          rfl
    · exfalso
      rw [List.mem_filterMap] at h
      obtain ⟨d, hd, hdk⟩ := h
      rw [List.mem_filterMap] at hd
      obtain ⟨idx, _, heq⟩ := hd
      dsimp only at heq
      by_cases h0 : get_ref b idx = ""
      · rw [if_pos h0] at heq
        exact absurd heq (by simp)
      · rw [if_neg h0] at heq
        by_cases hsome : (buildKeyMap a (get_ref b idx)).isSome
        · rw [if_pos hsome] at heq
          exact absurd heq (by simp)
        · rw [if_neg hsome] at heq
          injection heq with heq
          subst heq
          simp at hdk
  · rintro ⟨i, hi, hik, hne, hnot⟩
    left
    rw [List.mem_filterMap]
    refine ⟨⟨"removed", some i, none, k, []⟩, ?_, by rw [if_pos rfl]⟩
    rw [List.mem_filterMap]
    refine ⟨i, List.mem_range.mpr hi, ?_⟩
    dsimp only
    rw [hik, if_neg hne]
    have hbk : buildKeyMap b k = none := by
      cases hopt : buildKeyMap b k with
      | none => rfl
      | some v => rw [hopt] at hnot; simp at hnot
    rw [hbk]

/-- C5: for all datasets A and B, the set of keys of `added` rows of
`compare_boms A B` equals the set of keys of `removed` rows of
`compare_boms B A`, and the set of keys of `removed` rows of
`compare_boms A B` equals the set of keys of `added` rows of
`compare_boms B A`. -/
theorem C5_key_symmetry (a b : ParseResult) (k : String) :
    (k ∈ addedKeys (compare_boms a b) ↔ k ∈ removedKeys (compare_boms b a)) ∧
    (k ∈ removedKeys (compare_boms a b) ↔ k ∈ addedKeys (compare_boms b a)) := by
  constructor
  · rw [addedKeys_compare, removedKeys_compare]
  · rw [removedKeys_compare, addedKeys_compare]

-- ===========================================================================
-- Merge engine lemmas: the step-2 fold never fails
-- ===========================================================================

lemma queue_fold_mem (p : ParseResult) (l : List Nat) (init : String → List Nat)
    (P : Nat → Prop) (hinit : ∀ k i, i ∈ init k → P i) (hl : ∀ x ∈ l, P x) :
    ∀ k i, i ∈ (l.foldl (queue_map_step p) init) k → P i := by
  induction l generalizing init with
  | nil => exact hinit
  | cons x xs ih =>
    intro k i hi
    refine ih (queue_map_step p init x) ?_
      (fun y hy => hl y (List.mem_cons_of_mem x hy)) k i hi
    intro k2 i2 hi2
    unfold queue_map_step at hi2
    by_cases h0 : get_ref p x = ""
    · rw [if_pos h0] at hi2
      exact hinit k2 i2 hi2
    · rw [if_neg h0] at hi2
      by_cases hk : k2 = get_ref p x
      · rw [if_pos hk, List.mem_append] at hi2
        rcases hi2 with hi2 | hi2
        · exact hinit k2 i2 hi2
        · rw [List.mem_singleton] at hi2
          subst hi2
          exact hl i2 (List.mem_cons_self i2 xs)
      · rw [if_neg hk] at hi2
        exact hinit k2 i2 hi2

lemma buildQueueMap_bound (p : ParseResult) :
    ∀ k i, i ∈ buildQueueMap p k → i < p.rows.length := by
  unfold buildQueueMap
  exact queue_fold_mem p (List.range p.rows.length) (fun _ => [])
    (fun i => i < p.rows.length) (by simp) (fun x hx => List.mem_range.mp hx)

lemma merge_step_ok_eq (a b : ParseResult) (merged : List (List String))
    (m : String → List Nat) (used : List Nat) (ia : Nat × List String) :
    merge_step a b (.ok (merged, m, used)) ia =
      (match m (get_ref a ia.1) with
       | [] => .ok (merged ++ [ia.2], m, used)
       | idx_b :: restQ =>
         match b.rows[idx_b]? with
         | none => .error { message := "row index out of bounds" }
         | some row_b =>
           .ok (merged ++ [merge_row ia.2 row_b],
                fun k => if k = get_ref a ia.1 then restQ else m k,
                idx_b :: used)) := rfl

lemma merge_fold_ok (a b : ParseResult) (l : List (Nat × List String)) :
    ∀ (rowsAcc : List (List String)) (m : String → List Nat) (used : List Nat),
    (∀ k i, i ∈ m k → i < b.rows.length) →
    ∃ rows2 m2 used2,
      l.foldl (merge_step a b) (.ok (rowsAcc, m, used)) = .ok (rows2, m2, used2) ∧
      (∀ k i, i ∈ m2 k → i < b.rows.length) := by
  induction l with
  | nil => exact fun rowsAcc m used hm => ⟨rowsAcc, m, used, rfl, hm⟩
  | cons ia xs ih =>
    intro rowsAcc m used hm
    rw [List.foldl_cons, merge_step_ok_eq]
    cases hq : m (get_ref a ia.1) with
    | nil =>
      exact ih (rowsAcc ++ [ia.2]) m used hm
    | cons idx_b restQ =>
      have hlt : idx_b < b.rows.length :=
        hm (get_ref a ia.1) idx_b (by rw [hq]; exact List.mem_cons_self _ _)
      have hsome : b.rows[idx_b]? = some b.rows[idx_b] := List.getElem?_eq_getElem hlt
      simp only [hsome]
      refine ih _
        (fun k => if k = get_ref a ia.1 then restQ else m k) (idx_b :: used) ?_
      intro k i hi
      have hi2 : i ∈ (if k = get_ref a ia.1 then restQ else m k) := hi
      by_cases hk : k = get_ref a ia.1
      · rw [if_pos hk] at hi2
        exact hm (get_ref a ia.1) i (by rw [hq]; exact List.mem_cons_of_mem _ hi2)
      · rw [if_neg hk] at hi2
        exact hm k i hi2

lemma update_eq_ok (a b : ParseResult) :
    ∃ rows2,
      update_and_append_boms a b = .ok
        { rows := rows2,
          column_roles := a.column_roles,
          column_order := a.column_order,
          guessed_columns := [],
          guessed_roles := [],
          errors := [],
          headers := a.headers,
          columns := a.columns,
          row_numbers := List.range' 1 rows2.length,
          structured_errors := none } := by
  obtain ⟨rows2, m2, used2, hfold, _⟩ :=
    merge_fold_ok a b a.rows.enum [] (buildQueueMap b) [] (buildQueueMap_bound b)
  unfold update_and_append_boms
  simp only [hfold]
  exact ⟨_, rfl⟩

-- ===========================================================================
-- C10 and C6: merge totality and frame conditions
-- ===========================================================================

/-- C10: `update_and_append_boms` is total — for every pair of input
datasets it returns the `ok` variant; the error branch (which models the
only fallible operation, indexing `parse_b.rows[idx_b]`) is unreachable
because every queued index is a valid row index of the overlay. -/
theorem C10_merge_total (a b : ParseResult) :
    ∃ r, update_and_append_boms a b = Except.ok r := by
  obtain ⟨rows2, h⟩ := update_eq_ok a b
  exact ⟨_, h⟩

/-- C6: the dataset returned by `update_and_append_boms` reuses the base's
headers, columns, column roles and column order; its row numbers are
`1..n` for `n` result rows; its diagnostics (`errors` and
`structured_errors`) are empty. -/
theorem C6_merge_frame (a b : ParseResult) :
    ∃ r, update_and_append_boms a b = Except.ok r ∧
      r.headers = a.headers ∧ r.columns = a.columns ∧
      r.column_roles = a.column_roles ∧ r.column_order = a.column_order ∧
      r.row_numbers = List.range' 1 r.rows.length ∧
      r.errors = [] ∧ r.structured_errors = none := by
  obtain ⟨rows2, h⟩ := update_eq_ok a b
  exact ⟨_, h, rfl, rfl, rfl, rfl, rfl, rfl, rfl⟩

-- ===========================================================================
-- C3: per-cell behaviour of the matched-row merge
-- ===========================================================================

lemma merge_row_go_cons (m : List String) (i : Nat) (c : String)
    (rest : List String) :
    merge_row_go m i (c :: rest) =
      if (rust_trim c).isEmpty then merge_row_go m (i + 1) rest
      else if i < m.length then merge_row_go (m.set i c) (i + 1) rest
      else merge_row_go ((m ++ List.replicate (i - m.length) "") ++ [c]) (i + 1) rest := rfl

lemma trim_len_cons (c : String) (rest : List String) :
    trim_len (c :: rest) =
      if (decide (trim_len rest = 0) && (rust_trim c).isEmpty) = true then 0
      else trim_len rest + 1 := rfl

lemma trim_len_cons_zero (c : String) (rest : List String)
    (ht : trim_len rest = 0) (hc : (rust_trim c).isEmpty = true) :
    trim_len (c :: rest) = 0 := by
  rw [trim_len_cons, ht, hc]
  simp

lemma trim_len_cons_pos (c : String) (rest : List String)
    (h : trim_len rest ≠ 0 ∨ (rust_trim c).isEmpty = false) :
    trim_len (c :: rest) = trim_len rest + 1 := by
  rcases h with h | h <;> rw [trim_len_cons, if_neg (by simp [h])]

lemma merge_row_go_length (rest : List String) : ∀ (m : List String) (i : Nat),
    (merge_row_go m i rest).length =
      if trim_len rest = 0 then m.length else max m.length (i + trim_len rest) := by
  induction rest with
  | nil => intro m i; simp [merge_row_go, trim_len]
  | cons c rest ih =>
    intro m i
    rw [merge_row_go_cons]
    by_cases hc : (rust_trim c).isEmpty
    · rw [if_pos hc, ih m (i + 1)]
      by_cases ht : trim_len rest = 0
      · rw [trim_len_cons_zero c rest ht hc, if_pos ht, if_pos rfl]
      · rw [trim_len_cons_pos c rest (Or.inl ht), if_neg ht, if_neg (by omega)]
        omega
    · rw [if_neg hc, trim_len_cons_pos c rest (Or.inr (by simpa using hc))]
      by_cases hi : i < m.length
      · rw [if_pos hi, ih (m.set i c) (i + 1), List.length_set]
        by_cases ht : trim_len rest = 0
        · rw [if_pos ht, if_neg (by omega)]
          omega
        · rw [if_neg ht, if_neg (by omega)]
          omega
      · rw [if_neg hi, ih _ (i + 1)]
        have hlen : ((m ++ List.replicate (i - m.length) "") ++ [c]).length = i + 1 := by
          simp only [List.length_append, List.length_replicate, List.length_cons,
            List.length_nil]
          omega
        rw [hlen]
        by_cases ht : trim_len rest = 0
        · rw [if_pos ht, if_neg (by omega)]
          omega
        · rw [if_neg ht, if_neg (by omega)]
          omega

lemma merge_row_go_stable (rest : List String) : ∀ (m : List String) (i j : Nat),
    j < i → j < m.length → (merge_row_go m i rest)[j]? = m[j]? := by
  induction rest with
  | nil => intro m i j _ _; rfl
  | cons c rest ih =>
    intro m i j hji hjm
    rw [merge_row_go_cons]
    by_cases hc : (rust_trim c).isEmpty
    · rw [if_pos hc]
      exact ih m (i + 1) j (by omega) hjm
    · rw [if_neg hc]
      by_cases hi : i < m.length
      · rw [if_pos hi,
          ih (m.set i c) (i + 1) j (by omega) (by rw [List.length_set]; exact hjm)]
        exact List.getElem?_set_ne (by omega)
      · rw [if_neg hi]
        have hm2 : j < ((m ++ List.replicate (i - m.length) "") ++ [c]).length := by
          simp only [List.length_append, List.length_replicate, List.length_cons,
            List.length_nil]
          omega
        rw [ih _ (i + 1) j (by omega) hm2, List.getElem?_append,
          if_pos (by simp only [List.length_append, List.length_replicate]; omega),
          List.getElem?_append, if_pos hjm]

lemma merge_row_go_overwrite (rest : List String) :
    ∀ (m : List String) (i j : Nat) (c : String),
    rest[j]? = some c → (rust_trim c).isEmpty = false →
    (merge_row_go m i rest)[i + j]? = some c := by
  induction rest with
  | nil => intro m i j c h _; simp at h
  | cons c0 rest ih =>
    intro m i j c hj hc
    rw [merge_row_go_cons]
    cases j with
    | zero =>
      rw [List.getElem?_cons_zero] at hj
      injection hj with hj
      subst hj
      rw [if_neg (by simp [hc])]
      simp only [Nat.add_zero]
      by_cases hi : i < m.length
      · rw [if_pos hi,
          merge_row_go_stable rest (m.set i c0) (i + 1) i (by omega)
            (by rw [List.length_set]; exact hi)]
        exact List.getElem?_set_eq_of_lt c0 hi
      · rw [if_neg hi]
        have hm2len : ((m ++ List.replicate (i - m.length) "") ++ [c0]).length = i + 1 := by
          simp only [List.length_append, List.length_replicate, List.length_cons,
            List.length_nil]
          omega
        rw [merge_row_go_stable rest _ (i + 1) i (by omega) (by rw [hm2len]; omega)]
        have hlen2 : (m ++ List.replicate (i - m.length) "").length = i := by
          simp only [List.length_append, List.length_replicate]
          omega
        have hcat := List.getElem?_concat_length (m ++ List.replicate (i - m.length) "") c0
        rw [hlen2] at hcat
        exact hcat
    | succ j2 =>
      rw [List.getElem?_cons_succ] at hj
      rw [show i + (j2 + 1) = (i + 1) + j2 from by omega]
      by_cases hc0 : (rust_trim c0).isEmpty
      · rw [if_pos hc0]
        exact ih m (i + 1) j2 c hj hc
      · rw [if_neg hc0]
        by_cases hi : i < m.length
        · rw [if_pos hi]
          exact ih _ (i + 1) j2 c hj hc
        · rw [if_neg hi]
          exact ih _ (i + 1) j2 c hj hc

lemma merge_row_go_preserve (rest : List String) : ∀ (m : List String) (i j : Nat),
    j < m.length →
    (i ≤ j → (rust_trim (rest[j - i]?.getD "")).isEmpty = true) →
    (merge_row_go m i rest)[j]? = m[j]? := by
  induction rest with
  | nil => intro m i j _ _; rfl
  | cons c0 rest ih =>
    intro m i j hjm hemp
    rw [merge_row_go_cons]
    by_cases hc : (rust_trim c0).isEmpty
    · rw [if_pos hc]
      refine ih m (i + 1) j hjm ?_
      intro hij
      have h := hemp (by omega)
      rw [show j - i = (j - (i + 1)) + 1 from by omega, List.getElem?_cons_succ] at h
      exact h
    · rw [if_neg hc]
      by_cases hi : i < m.length
      · rw [if_pos hi]
        by_cases hij : i = j
        · exfalso
          subst hij
          have h := hemp (le_refl i)
          rw [Nat.sub_self, List.getElem?_cons_zero] at h
          simp only [Option.getD_some] at h
          rw [h] at hc
          exact hc rfl
        · rw [ih (m.set i c0) (i + 1) j (by rw [List.length_set]; exact hjm) ?_]
          · exact List.getElem?_set_ne hij
          · intro hij2
            have h := hemp (by omega)
            rw [show j - i = (j - (i + 1)) + 1 from by omega,
              List.getElem?_cons_succ] at h
            exact h
      · rw [if_neg hi]
        rw [merge_row_go_stable rest _ (i + 1) j (by omega)
          (by simp only [List.length_append, List.length_replicate, List.length_cons,
                List.length_nil]; omega)]
        rw [List.getElem?_append,
          if_pos (by simp only [List.length_append, List.length_replicate]; omega),
          List.getElem?_append, if_pos hjm]

lemma merge_row_go_padding (rest : List String) : ∀ (m : List String) (i j : Nat),
    m.length ≤ j → j < (merge_row_go m i rest).length →
    (i ≤ j → (rust_trim (rest[j - i]?.getD "")).isEmpty = true) →
    (merge_row_go m i rest)[j]? = some "" := by
  induction rest with
  | nil =>
    intro m i j hmj hlt _
    exfalso
    have h : (merge_row_go m i ([] : List String)) = m := rfl
    rw [h] at hlt
    omega
  | cons c0 rest ih =>
    intro m i j hmj hlt hemp
    rw [merge_row_go_cons] at hlt ⊢
    by_cases hc : (rust_trim c0).isEmpty
    · rw [if_pos hc] at hlt ⊢
      refine ih m (i + 1) j hmj hlt ?_
      intro hij
      have h := hemp (by omega)
      rw [show j - i = (j - (i + 1)) + 1 from by omega, List.getElem?_cons_succ] at h
      exact h
    · rw [if_neg hc] at hlt ⊢
      by_cases hi : i < m.length
      · rw [if_pos hi] at hlt ⊢
        refine ih (m.set i c0) (i + 1) j (by rw [List.length_set]; exact hmj) hlt ?_
        intro hij
        have h := hemp (by omega)
        rw [show j - i = (j - (i + 1)) + 1 from by omega, List.getElem?_cons_succ] at h
        exact h
      · rw [if_neg hi] at hlt ⊢
        by_cases hij : i = j
        · exfalso
          subst hij
          have h := hemp (le_refl i)
          rw [Nat.sub_self, List.getElem?_cons_zero] at h
          simp only [Option.getD_some] at h
          rw [h] at hc
          exact hc rfl
        · by_cases hji : j < i
          · rw [merge_row_go_stable rest _ (i + 1) j (by omega)
              (by simp only [List.length_append, List.length_replicate,
                    List.length_cons, List.length_nil]; omega)]
            rw [List.getElem?_append,
              if_pos (by simp only [List.length_append, List.length_replicate]; omega),
              List.getElem?_append_right hmj, List.getElem?_replicate,
              if_pos (by omega)]
          · refine ih _ (i + 1) j
              (by simp only [List.length_append, List.length_replicate,
                    List.length_cons, List.length_nil]; omega) hlt ?_
            intro hij2
            have h := hemp (by omega)
            rw [show j - i = (j - (i + 1)) + 1 from by omega,
              List.getElem?_cons_succ] at h
            exact h

/-- Base and overlay datasets for the C3 counterexample. -/
def mergeBase : ParseResult := mkDataset [["C1", "a"]]

/-- Overlay whose extra cell is non-empty only before trimming. -/
def mergeOverlay : ParseResult := mkDataset [["C1", "x", " "]]

/-- C3 counterexample: the overlay row `["C1", "x", " "]` is longer than the
matched base row `["C1", "a"]`, but the merged row is `["C1", "x"]` — it is
not extended with the extra overlay cell `" "` because that cell is empty
after trimming, so the claim's unconditional "extended with the extra
overlay cells when the overlay row is longer" fails. -/
theorem C3_counterexample :
    (update_and_append_boms mergeBase mergeOverlay).toOption.map
        (fun r => r.rows) = some [["C1", "x"]] ∧
    (mergeOverlay.rows[0]?.getD []).length = 3 ∧
    (mergeBase.rows[0]?.getD []).length = 2 ∧
    merge_row ["C1", "a"] ["C1", "x", " "] = ["C1", "x"] := by
  refine ⟨?_, rfl, rfl, ?_⟩ <;> decide

/-- C3 (amended): when merge matches a base row with an overlay row it
applies `merge_row`, for which: an overlay cell that is non-empty after
trimming lands at its index (overwriting in range, extending past the base
row's end); an in-range index whose overlay cell is empty after trimming
keeps the base cell (this includes every trailing base cell beyond the
overlay row's length); an extension index whose overlay cell is empty after
trimming holds the empty string when a later non-empty overlay cell forced
padding; and the merged row's length is the maximum of the base row's
length and the overlay row's length counted only up to its last cell that
is non-empty after trimming — trailing trim-empty overlay cells are
dropped, so the row is not always extended to the overlay row's length. -/
theorem C3_amended (row_a row_b : List String) :
    (∀ (j : Nat) (c : String), row_b[j]? = some c → (rust_trim c).isEmpty = false →
        (merge_row row_a row_b)[j]? = some c) ∧
    (∀ (j : Nat), j < row_a.length → (rust_trim (row_b[j]?.getD "")).isEmpty = true →
        (merge_row row_a row_b)[j]? = row_a[j]?) ∧
    (∀ (j : Nat), row_a.length ≤ j → j < (merge_row row_a row_b).length →
        (rust_trim (row_b[j]?.getD "")).isEmpty = true →
        (merge_row row_a row_b)[j]? = some "") ∧
    (merge_row row_a row_b).length = max row_a.length (trim_len row_b) := by
  refine ⟨?_, ?_, ?_, ?_⟩
  · intro j c hj hc
    have h := merge_row_go_overwrite row_b row_a 0 j c hj hc
    simpa using h
  · intro j hj hemp
    exact merge_row_go_preserve row_b row_a 0 j hj (fun _ => by simpa using hemp)
  · intro j hj hlt hemp
    exact merge_row_go_padding row_b row_a 0 j hj hlt (fun _ => by simpa using hemp)
  · rw [show merge_row row_a row_b = merge_row_go row_a 0 row_b from rfl,
      merge_row_go_length]
    by_cases ht : trim_len row_b = 0
    · rw [if_pos ht, ht]
      simp
    · rw [if_neg ht]
      simp

/-- C3 witness: the amended per-cell description applied to the concrete
counterexample rows. -/
theorem C3_amended_witness :
    (merge_row ["C1", "a"] ["C1", "x", " "])[1]? = some "x" ∧
    (merge_row ["C1", "a"] ["", "", " "])[0]? = some "C1" ∧
    (merge_row ["C1", "a"] ["C1", "x", " "]).length =
      max (["C1", "a"] : List String).length (trim_len ["C1", "x", " "]) :=
  ⟨(C3_amended ["C1", "a"] ["C1", "x", " "]).1 1 "x" (by decide) (by decide),
   (C3_amended ["C1", "a"] ["", "", " "]).2.1 0 (by decide) (by decide),
   (C3_amended ["C1", "a"] ["C1", "x", " "]).2.2.2⟩

-- ===========================================================================
-- C2: content-shape candidate thresholds
-- ===========================================================================

lemma column_stats_fold (l : List (Nat × List String)) :
    ∀ (f : Nat → ColumnStats) (c : Nat),
    (l.foldl column_stats_step f) c =
      ⟨(f c).non_empty + l.countP (fun ir => !(sample_cell ir c).isEmpty),
       (f c).reference_like +
         l.countP (fun ir =>
           !(sample_cell ir c).isEmpty && looks_like_reference (sample_cell ir c)),
       (f c).part_like +
         l.countP (fun ir =>
           !(sample_cell ir c).isEmpty && looks_like_part_number (sample_cell ir c)),
       (f c).manufacturer_like +
         l.countP (fun ir =>
           !(sample_cell ir c).isEmpty && looks_like_manufacturer (sample_cell ir c))⟩ := by
  induction l with
  | nil =>
    intro f c
    rcases hfc : f c with ⟨a1, a2, a3, a4⟩
    simp [List.countP_nil, hfc]
  | cons ir l ih =>
    intro f c
    rw [List.foldl_cons, ih (column_stats_step f ir) c]
    have hstep : (column_stats_step f ir) c =
        if (sample_cell ir c).isEmpty then f c
        else
          { non_empty := (f c).non_empty + 1,
            reference_like := (f c).reference_like +
              (if looks_like_reference (sample_cell ir c) then 1 else 0),
            part_like := (f c).part_like +
              (if looks_like_part_number (sample_cell ir c) then 1 else 0),
            manufacturer_like := (f c).manufacturer_like +
              (if looks_like_manufacturer (sample_cell ir c) then 1 else 0) } := rfl
    by_cases hemp : (sample_cell ir c).isEmpty
    · rw [hstep, if_pos hemp]
      simp only [List.countP_cons, hemp, Bool.not_true, Bool.false_and, if_neg]
      simp [hemp]
    · rw [hstep, if_neg hemp]
      rcases hfc : f c with ⟨a1, a2, a3, a4⟩
      simp only [List.countP_cons, ColumnStats.mk.injEq]
      have hne : (!(sample_cell ir c).isEmpty) = true := by simp [hemp]
      refine ⟨?_, ?_, ?_, ?_⟩ <;>
        · simp only [hne, Bool.true_and]
          split <;> first | omega | simp_all

/-- Indexed rows (in the shape `analyze_columns` receives) whose first
column has one reference-shaped value among two non-empty samples. -/
def shapeRows : List (Nat × List String) := [(0, ["C1"]), (1, ["!!"])]

/-- C2 counterexample: in `shapeRows` column 0 has two non-empty sampled
values of which exactly one is reference-shaped; one is not strictly more
than half of two, yet the column is accepted as a reference candidate
(the code tests `reference_like * 2 >= non_empty`, i.e. at least half). -/
theorem C2_counterexample :
    (analyze_columns shapeRows 1).reference_candidates = [0] ∧
    ref_like_count shapeRows 0 = 1 ∧
    non_empty_count shapeRows 0 = 2 ∧
    ¬ (non_empty_count shapeRows 0 < 2 * ref_like_count shapeRows 0) := by
  refine ⟨?_, ?_, ?_, ?_⟩ <;> decide

/-- C2 (amended): in the content-shape fallback a column is a candidate for
a role (reference, part number, manufacturer) if and only if, among the
bounded sample of data rows, at least one of the column's non-empty sampled
values matches the role's shape predicate and the matches are at least half
of the non-empty sampled values (twice the match count is at least the
non-empty count) — not strictly more than half. -/
theorem C2_amended (rows : List (Nat × List String)) (max_columns c : Nat) :
    (c ∈ (analyze_columns rows max_columns).reference_candidates ↔
      (c < max_columns ∧ 0 < ref_like_count rows c ∧
        non_empty_count rows c ≤ ref_like_count rows c * 2)) ∧
    (c ∈ (analyze_columns rows max_columns).part_candidates ↔
      (c < max_columns ∧ 0 < part_like_count rows c ∧
        non_empty_count rows c ≤ part_like_count rows c * 2)) ∧
    (c ∈ (analyze_columns rows max_columns).manufacturer_candidates ↔
      (c < max_columns ∧ 0 < mfr_like_count rows c ∧
        non_empty_count rows c ≤ mfr_like_count rows c * 2)) := by
  have hstats : ((rows.take MAX_SAMPLE_ROWS).foldl column_stats_step
      (fun _ => ⟨0, 0, 0, 0⟩)) c =
      ⟨non_empty_count rows c, ref_like_count rows c, part_like_count rows c,
        mfr_like_count rows c⟩ := by
    rw [column_stats_fold]
    unfold non_empty_count ref_like_count part_like_count mfr_like_count
    simp
  unfold analyze_columns
  refine ⟨?_, ?_, ?_⟩ <;>
    · dsimp only
      rw [List.mem_filter, List.mem_range, hstats]
      simp [and_assoc]

-- ===========================================================================
-- C7 and C8: blank-row handling and the hard-error condition of the classifier
-- ===========================================================================

lemma findIdx?_some_spec {α : Type} (p : α → Bool) :
    ∀ (l : List α) (i : Nat), l.findIdx? p = some i →
      ∃ x, l[i]? = some x ∧ p x = true := by
  intro l
  induction l with
  | nil => intro i h; simp [List.findIdx?_nil] at h
  | cons x xs ih =>
    intro i h
    rw [List.findIdx?_cons] at h
    by_cases hp : p x
    · rw [if_pos hp] at h
      injection h with h
      subst h
      exact ⟨x, List.getElem?_cons_zero, hp⟩
    · rw [if_neg hp, List.findIdx?_succ] at h
      cases hh : List.findIdx? p xs 0 with
      | none => rw [hh] at h; simp at h
      | some j =>
        rw [hh] at h
        have h2 : some (j + 1) = some i := h
        injection h2 with h2
        subst h2
        obtain ⟨y, hy, hpy⟩ := ih j hh
        exact ⟨y, by rw [List.getElem?_cons_succ]; exact hy, hpy⟩

lemma is_data_row_not_blank (row : List String) (h : is_data_row row = true) :
    is_blank_row row = false := by
  unfold is_data_row at h
  rw [Bool.and_eq_true, decide_eq_true_iff, decide_eq_true_iff] at h
  obtain ⟨v, hv, hvp⟩ := List.countP_pos.mp h.1
  unfold is_blank_row
  rw [Bool.eq_false_iff, Ne, List.all_eq_true]
  intro hall
  have := hall v hv
  rw [this] at hvp
  simp at hvp

lemma dropWhile_head?_not {α : Type} (p : α → Bool) :
    ∀ (l : List α) (x : α), (l.dropWhile p).head? = some x → p x = false := by
  intro l
  induction l with
  | nil => intro x h; simp [List.dropWhile] at h
  | cons y ys ih =>
    intro x h
    rw [List.dropWhile_cons] at h
    by_cases hp : p y
    · rw [if_pos hp] at h
      exact ih x h
    · rw [if_neg hp] at h
      rw [List.head?_cons] at h
      injection h with h
      subst h
      exact Bool.eq_false_iff.mpr hp

lemma IsSuffix.map_list {α β : Type} (f : α → β) {l₁ l₂ : List α}
    (h : l₁ <:+ l₂) : l₁.map f <:+ l₂.map f := by
  obtain ⟨t, ht⟩ := h
  exact ⟨t.map f, by rw [← List.map_append, ht]⟩

/-- C8: `build_bom_rows` returns a hard error exactly when the raw input is
empty or every raw row is fully blank; for every other input it returns a
dataset (all validation findings only populate the diagnostics). -/
theorem C8_hard_error_iff (rows : List (List String)) :
    (∃ e, build_bom_rows rows = Except.error e) ↔
      (∀ row ∈ rows, is_blank_row row = true) := by
  constructor
  · intro h
    by_contra hnb
    rw [not_forall] at hnb
    obtain ⟨row, hrow⟩ := hnb
    rw [Classical.not_imp] at hrow
    have hne : rows.isEmpty = false := by
      cases rows with
      | nil => exact absurd hrow.1 (List.not_mem_nil row)
      | cons x xs => rfl
    have hstripped : (rows.enum.dropWhile (fun ir => is_blank_row ir.2)) ≠ [] := by
      rw [Ne, List.dropWhile_eq_nil_iff]
      intro hall
      obtain ⟨i, hi⟩ := List.mem_iff_getElem?.mp hrow.1
      have hmem : (i, row) ∈ rows.enum := List.mem_enum_iff_getElem?.mpr hi
      exact hrow.2 (hall (i, row) hmem)
    obtain ⟨e, he⟩ := h
    unfold build_bom_rows at he
    rw [if_neg (by rw [hne]; exact Bool.false_ne_true)] at he
    rw [if_neg (by rwa [Ne, ← List.isEmpty_iff] at hstripped)] at he
    cases hd : detect_data_start (rows.enum.dropWhile (fun ir => is_blank_row ir.2)) with
    | some idx =>
      rw [hd] at he
      have hlt : idx < (rows.enum.dropWhile (fun ir => is_blank_row ir.2)).length := by
        unfold detect_data_start at hd
        obtain ⟨x, hx, _⟩ := findIdx?_some_spec _ _ idx hd
        obtain ⟨hlt, _⟩ := List.getElem?_eq_some.mp hx
        exact hlt
      rw [if_neg (by
        rw [List.isEmpty_iff, List.drop_eq_nil_iff_le, not_le]
        exact hlt)] at he
      exact absurd he (by simp)
    | none =>
      rw [hd] at he
      rw [if_neg (by
        rw [List.isEmpty_iff, List.drop_eq_nil_iff_le, Nat.le_zero,
          List.length_eq_zero]
        exact hstripped)] at he
      exact absurd he (by simp)
  · intro hall
    cases hrows : rows with
    | nil => exact ⟨⟨"BOMデータ内に有効な行が見つかりませんでした。"⟩, rfl⟩
    | cons x xs =>
      refine ⟨⟨"BOMデータ内に有効な行が見つかりませんでした。"⟩, ?_⟩
      unfold build_bom_rows
      rw [if_neg (by simp)]
      rw [if_pos ?_]
      rw [List.isEmpty_iff, List.dropWhile_eq_nil_iff]
      rintro ⟨i, r⟩ hmem
      rw [List.enum_eq_zip_range] at hmem
      have := (List.of_mem_zip hmem).2
      exact hall r (by rw [hrows]; exact this)

/-- C7 counterexample: the raw input `[["C1"], [""]]` ends with a fully
blank row, and that trailing blank row appears verbatim in the resulting
dataset's rows — `build_bom_rows` strips leading blank rows only. -/
theorem C7_counterexample :
    (build_bom_rows [["C1"], [""]]).toOption.map (fun r => r.rows) =
      some [["C1"], [""]] ∧
    is_blank_row [""] = true := by
  refine ⟨?_, rfl⟩
  decide

/-- C7 (amended): when classification succeeds, the resulting dataset's
rows are a contiguous suffix of the raw input (interior and trailing blank
rows are retained verbatim), the first resulting row is never fully blank
(leading fully-blank rows are stripped, and rows before the detected data
start are dropped), and the row list is non-empty; trailing fully-blank
rows are not stripped. -/
theorem C7_amended (rows : List (List String)) (r : ParseResult)
    (h : build_bom_rows rows = Except.ok r) :
    r.rows ≠ [] ∧
    (r.rows.head?.all (fun row => !is_blank_row row)) = true ∧
    r.rows.isSuffixOf rows = true := by
  unfold build_bom_rows at h
  by_cases h1 : rows.isEmpty
  · rw [if_pos h1] at h
    exact absurd h (by simp)
  · rw [if_neg h1] at h
    by_cases h2 : (rows.enum.dropWhile (fun ir => is_blank_row ir.2)).isEmpty
    · rw [if_pos h2] at h
      exact absurd h (by simp)
    · rw [if_neg h2] at h
      have hsuffix_all : ∀ ds : Nat,
          ((rows.enum.dropWhile (fun ir => is_blank_row ir.2)).drop ds).map
              (fun ir => ir.2) <:+ rows := by
        intro ds
        have hch : ((rows.enum.dropWhile (fun ir => is_blank_row ir.2)).drop ds)
            <:+ rows.enum :=
          (List.drop_suffix ds _).trans (List.dropWhile_suffix _)
        have := IsSuffix.map_list (fun ir : Nat × List String => ir.2) hch
        rw [show rows.enum.map (fun ir : Nat × List String => ir.2) = rows from
          List.enum_map_snd rows] at this
        exact this
      cases hd : detect_data_start (rows.enum.dropWhile (fun ir => is_blank_row ir.2)) with
      | some idx =>
        rw [hd] at h
        dsimp only at h
        obtain ⟨x, hx, hpx⟩ := findIdx?_some_spec _ _ idx hd
        by_cases h3 :
            ((rows.enum.dropWhile (fun ir => is_blank_row ir.2)).drop idx).isEmpty
        · rw [if_pos h3] at h
          exact absurd h (by simp)
        · rw [if_neg h3] at h
          injection h with h
          subst h
          refine ⟨?_, ?_, ?_⟩
          · dsimp only
            rw [Ne, List.map_eq_nil]
            rwa [List.isEmpty_iff] at h3
          · dsimp only
            rw [List.head?_map, List.head?_drop, hx]
            have hblank := is_data_row_not_blank x.2 hpx
            simp [hblank]
          · dsimp only
            rw [List.isSuffixOf_iff_suffix]
            exact hsuffix_all idx
      | none =>
        rw [hd] at h
        dsimp only at h
        by_cases h3 :
            ((rows.enum.dropWhile (fun ir => is_blank_row ir.2)).drop 0).isEmpty
        · rw [if_pos h3] at h
          exact absurd h (by simp)
        · rw [if_neg h3] at h
          injection h with h
          subst h
          refine ⟨?_, ?_, ?_⟩
          · dsimp only
            rw [Ne, List.map_eq_nil]
            rwa [List.isEmpty_iff] at h3
          · dsimp only
            rw [List.head?_map, List.drop_zero]
            cases hs : (rows.enum.dropWhile (fun ir => is_blank_row ir.2)).head? with
            | none =>
              exfalso
              rw [List.head?_eq_none_iff] at hs
              rw [List.isEmpty_iff] at h2
              exact h2 hs
            | some x =>
              have hblank := dropWhile_head?_not _ rows.enum x hs
              have hblank2 : is_blank_row x.2 = false := hblank
              simp [hblank2]
          · dsimp only
            rw [List.isSuffixOf_iff_suffix, List.drop_zero]
            have := hsuffix_all 0
            rwa [List.drop_zero] at this

/-- Raw rows for the C7 witness. -/
def exC7rows : List (List String) := [["C1"], [""]]

/-- The dataset `build_bom_rows` produces for `exC7rows`. -/
def exC7result : ParseResult :=
  match build_bom_rows exC7rows with
  | .ok r => r
  | .error _ => ⟨[], [], [], [], [], [], [], [], [], none⟩

/-- C7 witness: the amended statement at the concrete input, obtained by
applying the amended theorem. -/
theorem C7_amended_witness :
    exC7result.rows ≠ [] ∧
    (exC7result.rows.head?.all (fun row => !is_blank_row row)) = true ∧
    exC7result.rows.isSuffixOf exC7rows = true :=
  C7_amended exC7rows exC7result rfl

-- ===========================================================================
-- C9: wildcard matching vs. the spec's glob reading
-- ===========================================================================

lemma findSub_nil (p : List Char) :
    findSub [] p = if p.isEmpty then some 0 else none := rfl

lemma findSub_cons (c : Char) (t2 p : List Char) :
    findSub (c :: t2) p =
      if ((c :: t2).take p.length == p) = true then some 0
      else (findSub t2 p).map (fun n => n + 1) := rfl

lemma findSub_complete (p : List Char) :
    ∀ (x y : List Char), ∃ f, findSub (x ++ p ++ y) p = some f ∧ f ≤ x.length := by
  intro x
  induction x with
  | nil =>
    intro y
    refine ⟨0, ?_, Nat.le_refl 0⟩
    cases hpy : p ++ y with
    | nil =>
      obtain ⟨hp, hy⟩ := List.append_eq_nil.mp hpy
      subst hp
      subst hy
      rfl
    | cons c t2 =>
      rw [List.nil_append, hpy, findSub_cons, if_pos ?_]
      rw [← hpy, List.take_left]
      exact beq_iff_eq.mpr rfl
  | cons c x2 ih =>
    intro y
    simp only [List.cons_append]
    rw [findSub_cons]
    by_cases hc : ((c :: (x2 ++ p ++ y)).take p.length == p) = true
    · exact ⟨0, by rw [if_pos hc], Nat.zero_le _⟩
    · obtain ⟨f, hf, hfle⟩ := ih y
      refine ⟨f + 1, ?_, by simpa using Nat.succ_le_succ hfle⟩
      rw [if_neg hc, hf]
      rfl

lemma findSub_sound :
    ∀ (t p : List Char) (f : Nat), findSub t p = some f →
      ∃ x y, t = x ++ p ++ y ∧ x.length = f := by
  intro t
  induction t with
  | nil =>
    intro p f h
    rw [findSub_nil] at h
    by_cases hp : p.isEmpty
    · rw [if_pos hp] at h
      injection h with h
      subst h
      exact ⟨[], [], by simp [List.isEmpty_iff.mp hp], rfl⟩
    · rw [if_neg hp] at h
      exact absurd h (by simp)
  | cons c t2 ih =>
    intro p f h
    rw [findSub_cons] at h
    by_cases hc : ((c :: t2).take p.length == p) = true
    · rw [if_pos hc] at h
      injection h with h
      subst h
      refine ⟨[], (c :: t2).drop p.length, ?_, rfl⟩
      have hp : List.take p.length (c :: t2) = p := beq_iff_eq.mp hc
      rw [List.nil_append]
      conv_lhs => rw [← List.take_append_drop p.length (c :: t2)]
      rw [hp]
    · rw [if_neg hc] at h
      cases hh : findSub t2 p with
      | none => rw [hh] at h; exact absurd h (by simp)
      | some f2 =>
        rw [hh] at h
        have h2 : some (f2 + 1) = some f := h
        injection h2 with h2
        subst h2
        obtain ⟨x, y, hxy, hlen⟩ := ih p f2 hh
        exact ⟨c :: x, y, by rw [hxy]; rfl, by simp [hlen]⟩

lemma ends_with_of_suffix (t p : List Char) (h : p <:+ t) :
    ends_with_l t p = true := by
  obtain ⟨pre, hpre⟩ := h
  unfold ends_with_l
  rw [← hpre, List.length_append,
    show pre.length + p.length - p.length = pre.length from by omega,
    List.drop_left]
  exact beq_iff_eq.mpr rfl

lemma wild_go_cons (target : List Char) (p : List Char) (ps : List (List Char))
    (i cur : Nat) :
    wild_go target (p :: ps) i cur =
      if p.isEmpty then wild_go target ps (i + 1) cur
      else if i == 0 then
        (if starts_with_l target p then wild_go target ps (i + 1) p.length
         else false)
      else if ps.isEmpty then ends_with_l target p
      else
        match findSub (target.drop cur) p with
        | some found => wild_go target ps (i + 1) (cur + found + p.length)
        | none => false := rfl

lemma wild_go_sound (target : List Char) :
    ∀ (ps : List (List Char)) (i cur : Nat), i ≠ 0 →
    (∃ g rest, target.drop cur = g ++ rest ∧ glob_spec ps rest) →
    wild_go target ps i cur = true := by
  intro ps
  induction ps with
  | nil => intro i cur _ _; rfl
  | cons p ps ih =>
    intro i cur hi hex
    obtain ⟨g, rest, hsplit, hglob⟩ := hex
    rw [wild_go_cons]
    by_cases hp : p.isEmpty
    · rw [if_pos hp]
      have hp0 : p = [] := List.isEmpty_iff.mp hp
      subst hp0
      cases hglob with
      | single => rfl
      | cons p0 g0 ps0 t0 hglob0 =>
        exact ih (i + 1) cur (by omega)
          ⟨g ++ g0, t0, by rw [hsplit]; simp, hglob0⟩
    · rw [if_neg hp, if_neg (by simp [hi])]
      by_cases hpse : ps.isEmpty
      · rw [if_pos hpse]
        have hps0 : ps = [] := List.isEmpty_iff.mp hpse
        subst hps0
        cases hglob with
        | single =>
          apply ends_with_of_suffix
          have hsuf : p <:+ target.drop cur := ⟨g, hsplit.symm⟩
          exact List.IsSuffix.trans hsuf (List.drop_suffix cur target)
        | cons p0 g2 ps2 t2 hg2 => cases hg2
      · rw [if_neg hpse]
        cases hglob with
        | single => simp at hpse
        | cons p0 g2 ps2 t2 hg2 =>
          have hsplit2 : target.drop cur = (g ++ p) ++ (g2 ++ t2) := by
            rw [hsplit]; simp
          obtain ⟨f, hf, hfle⟩ := findSub_complete p g (g2 ++ t2)
          rw [show g ++ p ++ (g2 ++ t2) = (g ++ p) ++ (g2 ++ t2) from by simp,
            ← hsplit2] at hf
          rw [hf]
          apply ih (i + 1) (cur + f + p.length) (by omega)
          refine ⟨(g ++ p).drop (f + p.length) ++ g2, t2, ?_, hg2⟩
          rw [show cur + f + p.length = cur + (f + p.length) from by omega,
            ← List.drop_drop, hsplit2,
            List.drop_append_of_le_length (by simp only [List.length_append]; omega)]
          simp

lemma split_parts_ne_nil (l : List Char) : split_parts l ≠ [] := by
  induction l with
  | nil => simp [split_parts]
  | cons c rest ih =>
    unfold split_parts
    by_cases hc : (c == '*') = true
    · rw [if_pos hc]; simp
    · rw [if_neg hc]
      cases hsp : split_parts rest with
      | nil => exact absurd hsp ih
      | cons q qs => simp

lemma split_parts_singleton :
    ∀ (l : List Char) (q : List Char), split_parts l = [q] → q = l := by
  intro l
  induction l with
  | nil =>
    intro q h
    have h2 : ([[]] : List (List Char)) = [q] := h
    injection h2 with h2
    exact h2.symm
  | cons c rest ih =>
    intro q h
    unfold split_parts at h
    by_cases hc : (c == '*') = true
    · rw [if_pos hc] at h
      injection h with h1 h2
      exact absurd h2 (split_parts_ne_nil rest)
    · rw [if_neg hc] at h
      cases hsp : split_parts rest with
      | nil => exact absurd hsp (split_parts_ne_nil rest)
      | cons q0 qs =>
        rw [hsp] at h
        injection h with h1 h2
        subst h2
        subst h1
        rw [ih q0 hsp]

lemma wildcard_match_of_glob (t p : List Char) (h : glob_spec_matches p t) :
    wildcard_match t p = true := by
  unfold glob_spec_matches at h
  unfold wildcard_match
  by_cases hstar : (p == ['*']) = true
  · rw [if_pos hstar]
  · rw [if_neg hstar]
    by_cases hlen : ((split_parts p).length == 1) = true
    · rw [if_pos hlen]
      cases hsp : split_parts p with
      | nil => exact absurd hsp (split_parts_ne_nil p)
      | cons q qs =>
        have hqs : qs = [] := by
          rw [hsp] at hlen
          simp only [List.length_cons, beq_iff_eq] at hlen
          exact List.length_eq_zero.mp (by omega)
        subst hqs
        have hq : q = p := split_parts_singleton p q hsp
        subst hq
        rw [hsp] at h
        cases h with
        | single => exact beq_iff_eq.mpr rfl
        | cons p0 g2 ps2 t2 hg2 => cases hg2
    · rw [if_neg hlen]
      cases hsp : split_parts p with
      | nil => exact absurd hsp (split_parts_ne_nil p)
      | cons p0 ps =>
        rw [hsp] at h
        have hps : ps ≠ [] := by
          intro hcon
          subst hcon
          rw [hsp] at hlen
          simp at hlen
        rw [wild_go_cons]
        by_cases hp0 : p0.isEmpty
        · rw [if_pos hp0]
          have hp00 : p0 = [] := List.isEmpty_iff.mp hp0
          subst hp00
          cases h with
          | single => exact absurd rfl hps
          | cons q0 g0 ps0 t0 hg0 =>
            apply wild_go_sound _ ps 1 0 (by omega)
            refine ⟨g0, t0, ?_, hg0⟩
            rw [List.drop_zero]
            simp
        · rw [if_neg hp0, if_pos (show ((0 : Nat) == 0) = true from rfl)]
          cases h with
          | single => exact absurd rfl hps
          | cons q0 g0 ps0 t0 hg0 =>
            have hsw : starts_with_l (p0 ++ g0 ++ t0) p0 = true := by
              unfold starts_with_l
              rw [show p0 ++ g0 ++ t0 = p0 ++ (g0 ++ t0) from by simp,
                List.take_left]
              exact beq_iff_eq.mpr rfl
            rw [if_pos hsw]
            apply wild_go_sound _ ps 1 p0.length (by omega)
            refine ⟨g0, t0, ?_, hg0⟩
            rw [show p0 ++ g0 ++ t0 = p0 ++ (g0 ++ t0) from by simp,
              List.drop_left]

lemma glob_spec_length (parts : List (List Char)) (target : List Char)
    (h : glob_spec parts target) :
    (parts.map List.length).sum ≤ target.length := by
  induction h with
  | single p => simp
  | cons p g ps t _ ih =>
    simp only [List.map_cons, List.sum_cons, List.length_append]
    omega

/-- C9 counterexample: `value_matches "ab" "a*ab" "wildcard"` accepts, but
under the claim's glob reading the target `"ab"` cannot be split as the
segment `"a"`, a gap, then the segment `"ab"` (that needs length at least
3): the final literal segment is only checked as a suffix of the whole
target and may overlap the consumed prefix. -/
theorem C9_counterexample :
    value_matches "ab" "a*ab" "wildcard" = true ∧
    ¬ glob_spec_matches "a*ab".data "ab".data := by
  constructor
  · decide
  · intro h
    unfold glob_spec_matches at h
    have h2 : glob_spec [['a'], ['a', 'b']] ['a', 'b'] := h
    have h3 := glob_spec_length _ _ h2
    exact absurd h3 (by decide)

/-- C9 (amended): `value_matches` is case-insensitive for `equals`,
`contains`, `starts_with`, `ends_with` and `wildcard`; any other match type
defaults to wildcard matching when the pattern contains `'*'` and to
case-insensitive equality otherwise; and `wildcard_match` is a one-sided
greedy approximation of `'*'`-glob matching: every target that can be split
so that the literal segments between `'*'`s occur in order is accepted, but
acceptance is strictly weaker because the final non-empty segment is only
required to be a suffix of the whole target (so pattern `a*ab` also accepts
target `ab`). -/
theorem C9_amended :
    (∀ (t t2 p p2 mt : String),
        to_lowercase (rust_trim mt) ∈
          (["equals", "contains", "starts_with", "ends_with", "wildcard"] :
            List String) →
        to_lowercase t = to_lowercase t2 → to_lowercase p = to_lowercase p2 →
        value_matches t p mt = value_matches t2 p2 mt) ∧
    (∀ (t p mt : String),
        to_lowercase (rust_trim mt) ∉
          (["equals", "contains", "starts_with", "ends_with", "wildcard"] :
            List String) →
        value_matches t p mt =
          (if p.data.contains '*' then
            wildcard_match (to_lowercase t).data (to_lowercase p).data
          else to_lowercase t == to_lowercase p)) ∧
    (∀ (t p : List Char), glob_spec_matches p t → wildcard_match t p = true) := by
  refine ⟨?_, ?_, fun t p h => wildcard_match_of_glob t p h⟩
  · intro t t2 p p2 mt hmem ht hp
    unfold value_matches
    simp only [List.mem_cons, List.mem_singleton, List.not_mem_nil, or_false] at hmem
    rcases hmem with hmt | hmt | hmt | hmt | hmt <;>
      · rw [hmt]
        simp [ht, hp]
  · intro t p mt hmem
    unfold value_matches
    simp only [List.mem_cons, List.mem_singleton, List.not_mem_nil, or_false,
      not_or] at hmem
    obtain ⟨h1, h2, h3, h4, h5⟩ := hmem
    rw [if_neg h1, if_neg h2, if_neg h3, if_neg h4, if_neg h5]

/-- C9 witness: the amended theorem applied at concrete inputs. -/
theorem C9_amended_witness :
    value_matches "AxB" "a*b" "Wildcard " = value_matches "axb" "A*B" "Wildcard " ∧
    value_matches "HELLO" "hello" "fuzzy" =
      (if "hello".data.contains '*' then
        wildcard_match (to_lowercase "HELLO").data (to_lowercase "hello").data
      else to_lowercase "HELLO" == to_lowercase "hello") ∧
    wildcard_match "axb".data "a*b".data = true :=
  ⟨C9_amended.1 "AxB" "axb" "a*b" "A*B" "Wildcard " (by decide) (by decide) (by decide),
   C9_amended.2.1 "HELLO" "hello" "fuzzy" (by decide),
   C9_amended.2.2 "axb".data "a*b".data
     (glob_spec.cons ['a'] ['x'] [['b']] ['b'] (glob_spec.single ['b']))⟩
